import Mathlib

/-!
Shallow embedding of the conversation-history compaction engine from
src/extension/prompts/node/agent/summarizedConversationHistory.tsx.

Modelling conventions:
* A TypeScript list that may be undefined but is only ever consumed through
  falsy guards or through a default of the empty list
  (promptContext.toolCallRounds) is embedded as a plain List.
* JavaScript truthiness on an optional string field (if (round.summary))
  treats both undefined and the empty string as absent; isTruthy captures
  this.
* The non-null assertions in getProps (history.at(-1)!.rounds.at(-1)!.id)
  would raise a TypeError at runtime when the accessed element is undefined;
  the embedding makes that path explicit as the undefinedAccess error.
* External collaborators (prompt renderer, chat endpoint, token counter,
  JSON parsing, path resolution, open notebook documents) are oracles
  passed in as environment records; the embedding models the control flow
  of summarizeHistory around them, recording the telemetry events emitted
  and the number of completion-endpoint calls made.
-/

namespace SCH

/-- One tool invocation inside a round: a tool name and its raw JSON
argument string (the source checks the argument string for truthiness, so
the empty string stands for an absent argument). -/
structure ToolCall where
  name : String
  arguments : String
deriving Repr, DecidableEq

/-- One model-generation step: stable id, tool invocations, and an optional
summary text installed by a previous compaction. -/
structure Round where
  id : String
  toolCalls : List ToolCall
  summary : Option String
deriving Repr, DecidableEq

/-- One conversation turn: the ordered rounds it contains (only the fields
the compaction engine reads are modelled). -/
structure Turn where
  rounds : List Round
deriving Repr, DecidableEq

/-- The per-render prompt context: persisted turn history, the in-progress
turn's pending tool-call rounds, and the continuation flag. -/
structure PromptContext where
  history : List Turn
  toolCallRounds : List Round
  isContinuation : Bool
deriving Repr, DecidableEq

/-- JavaScript truthiness of an optional string: undefined and the empty
string are both falsy. -/
def isTruthy : Option String → Bool
  | none => false
  | some s => s ≠ ""

/-- Failure modes of SummarizedConversationHistoryPropsBuilder.getProps:
the explicit throw of the Nothing-to-summarize error, and the runtime
TypeError raised by the unguarded non-null assertions. -/
inductive GetPropsError where
  | nothingToSummarize
  | undefinedAccess
deriving Repr, DecidableEq

/-- Result of round selection: the pending rounds kept for the
summarization attempt, the continuation flag, and the covered round id. -/
structure SelectionInfo where
  toolCallRounds : List Round
  isContinuation : Bool
  summarizedToolCallRoundId : String
deriving Repr, DecidableEq

/-- SummarizedConversationHistoryPropsBuilder.getProps: if the in-progress
turn has more than one pending round, drop the last and cover the new last
round; else if there is a prior turn, empty the pending list, force the
continuation flag, and cover the last round of the last prior turn; else
throw. Accesses through the source's non-null assertions surface as the
undefinedAccess error. -/
def getProps (ctx : PromptContext) : Except GetPropsError SelectionInfo :=
  if ctx.toolCallRounds.length > 1 then
    let tcr := ctx.toolCallRounds.dropLast
    match tcr.getLast? with
    | some r => .ok ⟨tcr, ctx.isContinuation, r.id⟩
    | none => .error .undefinedAccess
  else if ctx.history.length > 0 then
    match ctx.history.getLast? with
    | none => .error .undefinedAccess
    | some t =>
      match t.rounds.getLast? with
      | none => .error .undefinedAccess
      | some r => .ok ⟨[], true, r.id⟩
  else
    .error .nothingToSummarize

/-- Set the summary field of the first round in the list whose id matches,
leaving all other rounds unchanged (Array.prototype.find + in-place field
assignment). -/
def setSummaryFirst (rid s : String) : List Round → List Round
  | [] => []
  | r :: rest =>
    if r.id = rid then { r with summary := some s } :: rest
    else r :: setSummaryFirst rid s rest

/-- Whether a turn contains a round with the given id. -/
def turnHasRound (rid : String) (t : Turn) : Bool :=
  t.rounds.any fun r => r.id = rid

/-- Patch the first turn (in the given order, which the caller supplies
newest-first) containing the round id, setting that round's summary; later
turns in the scan are untouched once a match is found. -/
def patchTurnsRev (rid s : String) : List Turn → List Turn
  | [] => []
  | t :: rest =>
    if turnHasRound rid t then { rounds := setSummaryFirst rid s t.rounds } :: rest
    else t :: patchTurnsRev rid s rest

/-- SummarizedConversationHistory.addSummaryToHistory: install the summary
on the first pending round with the id if present, else on the first
matching round found scanning persisted turns newest-to-oldest; a no-op if
the id occurs nowhere. -/
def addSummaryToHistory (ctx : PromptContext) (s rid : String) : PromptContext :=
  if ctx.toolCallRounds.any (fun r => r.id = rid) then
    { ctx with toolCallRounds := setSummaryFirst rid s ctx.toolCallRounds }
  else
    { ctx with history := (patchTurnsRev rid s ctx.history.reverse).reverse }

/-- Outcome of the prompt-rendering collaborator for the summarization
request: success, the budget-exceeded rendering failure, or any other
rendering failure. -/
inductive RenderOutcome where
  | ok
  | budgetExceeded
  | renderError
deriving Repr, DecidableEq

/-- Outcome of the completion endpoint: a successful response carrying the
summary text and request id, the Failed response type, any other
non-success response type (its type tag and reason forwarded), or a thrown
transport error. -/
inductive ChatResult where
  | success (value : String) (requestId : String)
  | failed (requestId : String) (reason : String)
  | other (type : String) (requestId : String) (reason : String)
  | thrown
deriving Repr, DecidableEq

/-- Oracle environment for one summarization attempt: what the renderer
does, what the endpoint answers, and the token-sizing collaborator. -/
structure SummarizeEnv where
  renderOutcome : RenderOutcome
  chatResult : ChatResult
  countTokens : String → Nat
  tokenBudget : Nat

/-- The failure taxonomy of a compaction attempt as surfaced by
summarizeHistory (the two getProps failures propagate un-reported). -/
inductive SummarizeError where
  | nothingToSummarize
  | undefinedAccess
  | budgetExceeded
  | renderError
  | requestFailed
  | upstreamFailure (type : String) (reason : String)
  | tooLarge
deriving Repr, DecidableEq

/-- Observable trace of one summarizeHistory run: the result (covered round
id and summary text on success), the telemetry outcome tags reported before
returning or rethrowing, how many completion-endpoint calls were made, and
the prompt context after the attempt (patched only on success). -/
structure SummarizeTrace where
  result : Except SummarizeError (String × String)
  telemetry : List String
  endpointCalls : Nat
  finalCtx : PromptContext
deriving Repr

/-- SummarizedConversationHistory.summarizeHistory: round selection, prompt
render, completion request, output-budget validation, telemetry, and the
history patch on success. getProps failures escape before any telemetry or
endpoint call; every later exit reports exactly one telemetry outcome. -/
def summarizeHistory (env : SummarizeEnv) (ctx : PromptContext) : SummarizeTrace :=
  match getProps ctx with
  | .error .nothingToSummarize => ⟨.error .nothingToSummarize, [], 0, ctx⟩
  | .error .undefinedAccess => ⟨.error .undefinedAccess, [], 0, ctx⟩
  | .ok info =>
    match env.renderOutcome with
    | .budgetExceeded => ⟨.error .budgetExceeded, ["budget_exceeded"], 0, ctx⟩
    | .renderError => ⟨.error .renderError, ["renderError"], 0, ctx⟩
    | .ok =>
      match env.chatResult with
      | .thrown => ⟨.error .requestFailed, ["requestThrow"], 1, ctx⟩
      | .failed _ reason =>
        ⟨.error (.upstreamFailure "failed" reason), ["failed"], 1, ctx⟩
      | .other ty _ reason =>
        ⟨.error (.upstreamFailure ty reason), [ty], 1, ctx⟩
      | .success v _ =>
        if env.countTokens v > env.tokenBudget then
          ⟨.error .tooLarge, ["too_large"], 1, ctx⟩
        else
          ⟨.ok (info.summarizedToolCallRoundId, v), ["success"], 1,
            addSummaryToHistory ctx v info.summarizedToolCallRoundId⟩

/-- The telemetry outcome tags the spec's taxonomy expects for each result
of a compaction attempt: one tag per exit, none for the pre-flight getProps
failures. -/
def expectedTelemetryTags : Except SummarizeError (String × String) → List String
  | .error .nothingToSummarize => []
  | .error .undefinedAccess => []
  | .error .budgetExceeded => ["budget_exceeded"]
  | .error .renderError => ["renderError"]
  | .error .requestFailed => ["requestThrow"]
  | .error (.upstreamFailure ty _) => [ty]
  | .error .tooLarge => ["too_large"]
  | .ok _ => ["success"]

/-- Abstract items of the rendered conversation history, in the order the
final prompt presents them: a ChatToolCalls element carrying verbatim
rounds, the in-progress turn's user message, a historical turn's user
message, or a conversation-summary message. -/
inductive HistItem where
  | toolCalls (rounds : List Round)
  | currentUserMessage
  | turnUserMessage (turn : Turn)
  | summaryMessage (text : String)
deriving Repr, DecidableEq

/-- Backward scan of a round list (the source iterates indices from the end)
collecting rounds until one with a truthy summary is found; acc holds the
rounds already pushed, in push (reverse-chronological) order. -/
def scanRoundsGo : List Round → List Round → Option (String × String) × List Round
  | [], acc => (none, acc.reverse)
  | r :: rest, acc =>
    if isTruthy r.summary then (some (r.id, r.summary.getD ""), acc.reverse)
    else scanRoundsGo rest (acc ++ [r])

/-- Find the latest round of the list carrying a truthy summary, returning
its id and text together with the rounds after it re-linearized into
chronological order (the toolCallRounds.reverse() of the source). -/
def scanRounds (rounds : List Round) : Option (String × String) × List Round :=
  scanRoundsGo rounds.reverse []

/-- The turns loop of ConversationHistory.render, taking the turn list
newest-first and producing items in push order: each turn contributes its
ChatToolCalls element then its user message or summary message, and the
loop breaks at the first turn containing a summarized round. -/
def renderTurnsRev : List Turn → List HistItem
  | [] => []
  | t :: rest =>
    match scanRounds t.rounds with
    | (some (_, text), tcr) => [.toolCalls tcr, .summaryMessage text]
    | (none, tcr) => [.toolCalls tcr, .turnUserMessage t] ++ renderTurnsRev rest

/-- ConversationHistory.render: handle a summary installed partway through
the current turn, otherwise emit the current user message (unless the
continuation flag excludes it) and walk the persisted turns newest-first;
the accumulated push-order list is reversed into chronological order at the
end. -/
def render (ctx : PromptContext) : List HistItem :=
  if ctx.toolCallRounds.isEmpty then
    ((if ctx.isContinuation then [] else [HistItem.currentUserMessage]) ++
      renderTurnsRev ctx.history.reverse).reverse
  else
    match scanRounds ctx.toolCallRounds with
    | (some (_, text), tcr) =>
      ([HistItem.toolCalls tcr, HistItem.summaryMessage text] : List HistItem).reverse
    | (none, tcr) =>
      ((HistItem.toolCalls tcr ::
        (if ctx.isContinuation then [] else [HistItem.currentUserMessage])) ++
        renderTurnsRev ctx.history.reverse).reverse

/-- The rounds a rendered item list presents verbatim, in presentation
order. -/
def verbatimRounds : List HistItem → List Round
  | [] => []
  | .toolCalls rs :: rest => rs ++ verbatimRounds rest
  | _ :: rest => verbatimRounds rest

/-- The conversation-summary texts a rendered item list presents, in
presentation order. -/
def summaryTexts : List HistItem → List String
  | [] => []
  | .summaryMessage t :: rest => t :: summaryTexts rest
  | _ :: rest => summaryTexts rest

/-- Inner loop of the telemetry round counter: walk one turn's rounds
newest-first carrying (current measurement, running count); on a truthy
summary the measurement is set to the running count and the walk of this
turn stops (the break of the source exits only the inner loop). -/
def scanTurnRounds : List Round → Int × Nat → Int × Nat
  | [], st => st
  | r :: rest, (n, count) =>
    if isTruthy r.summary then ((count : Int), count)
    else scanTurnRounds rest (n, count + 1)

/-- Outer loop of the telemetry round counter: continue across all turns
(newest-first) even after a summary has been found, as the source's break
leaves only the inner loop. -/
def scanHistoryTurns : List Turn → Int × Nat → Int
  | [], (n, _) => n
  | t :: rest, st => scanHistoryTurns rest (scanTurnRounds t.rounds.reverse st)

/-- The numRoundsSinceLastSummarization measurement computed by
SummarizedConversationHistory.sendSummarizationTelemetry: findIndex over
the reversed in-progress rounds, else the two nested loops over the
reversed history starting the count at the number of in-progress rounds. -/
def numRoundsSinceLastSummarization (ctx : PromptContext) : Int :=
  match ctx.toolCallRounds.reverse.findIdx? (fun r => isTruthy r.summary) with
  | some i => (i : Int)
  | none => scanHistoryTurns ctx.history.reverse (-1, ctx.toolCallRounds.length)

/-- All rounds of the context newest-first: in-progress rounds first, then
the persisted turns newest-to-oldest, each turn's rounds newest-first. -/
def roundsNewestFirst (ctx : PromptContext) : List Round :=
  ctx.toolCallRounds.reverse ++ (ctx.history.reverse.map (fun t => t.rounds.reverse)).flatten

/-- Modelled from the spec: the measurement the spec describes — scan
backward from the newest round, stop at the first round with an existing
summary, and report the number of rounds skipped (minus one when no
summarized round exists, matching the initialization of the source). -/
def numRoundsSinceLastSummarizationSpec (ctx : PromptContext) : Int :=
  match (roundsNewestFirst ctx).findIdx? (fun r => isTruthy r.summary) with
  | some i => (i : Int)
  | none => -1

/-- The recognized notebook-execution tool name (ToolName.RunNotebookCell;
its concrete value is opaque to the control flow modelled here). -/
def runNotebookCellName : String := "run_notebook_cell"

/-- Whether a tool invocation is the recognized notebook-execution tool. -/
def isNotebookCall (c : ToolCall) : Bool := c.name = runNotebookCellName

/-- Whether a round contains a recognized notebook-execution invocation. -/
def hasNotebookCall (r : Round) : Bool := r.toolCalls.any isNotebookCall

/-- A live notebook document, identified by its resolved URI string. -/
structure NotebookDoc where
  uri : String
deriving Repr, DecidableEq

/-- Outcome of JSON-parsing a tool-call argument string and reading its
filePath property: a parse failure, or the parsed object whose filePath is
a string or is absent or non-string. -/
inductive ParseOutcome where
  | malformed
  | parsed (filePath : Option String)
deriving Repr, DecidableEq

/-- Oracle collaborators of the notebook enrichment: JSON parsing, the
prompt-path resolution service, and the open notebook documents of the
workspace. -/
structure NotebookEnv where
  parse : String → ParseOutcome
  resolveFilePath : String → Option String
  notebookDocuments : List NotebookDoc

/-- SummarizedConversationHistoryPropsBuilder.getWorkingNotebook: scan the
original context's in-progress rounds newest-first for a round with a
recognized notebook invocation, take the first such invocation of that
round, and resolve its filePath argument to an open notebook document;
every failure along the way yields no attachment. -/
def getWorkingNotebook (env : NotebookEnv) (ctx : PromptContext) : Option NotebookDoc :=
  match ctx.toolCallRounds.reverse.find? hasNotebookCall with
  | none => none
  | some round =>
    match round.toolCalls.find? isNotebookCall with
    | none => none
    | some call =>
      if call.arguments = "" then none
      else
        match env.parse call.arguments with
        | .malformed => none
        | .parsed none => none
        | .parsed (some fp) =>
          match env.resolveFilePath fp with
          | none => none
          | some uri => env.notebookDocuments.find? (fun d => d.uri = uri)

/-- The getProps call site of the notebook enrichment: the selection
result is paired with the working notebook computed from the original,
pre-selection context. -/
def getPropsNotebook (env : NotebookEnv) (ctx : PromptContext) :
    Except GetPropsError (SelectionInfo × Option NotebookDoc) :=
  (getProps ctx).map fun info => (info, getWorkingNotebook env ctx)

/-- The summary-independent fields of a round: its id and tool calls. -/
def roundSkel (r : Round) : String × List ToolCall := (r.id, r.toolCalls)

/-- The structure of a prompt context that summary installation must leave
unchanged: the per-turn round skeletons in order, the pending-round
skeletons in order, and the continuation flag. -/
def ctxSkel (ctx : PromptContext) :
    List (List (String × List ToolCall)) × List (String × List ToolCall) × Bool :=
  (ctx.history.map (fun t => t.rounds.map roundSkel),
   ctx.toolCallRounds.map roundSkel, ctx.isContinuation)

/-- Concrete pending rounds and contexts used by witnesses and
counterexamples. -/
def rP1 : Round := ⟨"p1", [], none⟩

/-- Second concrete pending round. -/
def rP2 : Round := ⟨"p2", [], none⟩

/-- Concrete historical round. -/
def rH1 : Round := ⟨"r1", [], none⟩

/-- Context with two pending rounds and no history. -/
def ctxTwoPending : PromptContext := ⟨[], [rP1, rP2], false⟩

/-- Context with one prior turn of one round and no pending rounds. -/
def ctxOneTurn : PromptContext := ⟨[⟨[rH1]⟩], [], false⟩

/-- Context whose only prior turn has an empty rounds list. -/
def ctxEmptyLastTurn : PromptContext := ⟨[⟨[]⟩], [], false⟩

/-- Context with neither prior turns nor pending rounds. -/
def ctxNothing : PromptContext := ⟨[], [], false⟩

/-- Oracle environment whose completion request throws. -/
def envThrow : SummarizeEnv := ⟨.ok, .thrown, fun _ => 0, 100⟩

/-- Oracle environment returning a successful summary that measures over
the output token budget. -/
def envTooLarge : SummarizeEnv := ⟨.ok, .success "BIGSUM" "req1", String.length, 3⟩

/-- Context with two persisted turns, each holding an older summarized
round followed by an unsummarized one: turn A = [a1 with summary, a2],
turn B = [b1 with summary, b2]. -/
def ctxTwoSummarizedTurns : PromptContext :=
  ⟨[⟨[⟨"a1", [], some "sa"⟩, ⟨"a2", [], none⟩]⟩,
    ⟨[⟨"b1", [], some "sb"⟩, ⟨"b2", [], none⟩]⟩], [], false⟩

/-- A tool invocation of the recognized notebook-execution tool with a
well-formed argument payload. -/
def notebookCall : ToolCall := ⟨runNotebookCellName, "args2"⟩

/-- A pending round (the last one, which selection will drop) carrying the
notebook invocation. -/
def rNbLast : Round := ⟨"nb2", [notebookCall], none⟩

/-- The open notebook document the oracle resolves the invocation to. -/
def doc9 : NotebookDoc := ⟨"uri-nb"⟩

/-- Notebook oracle: parsing the known payload yields a filePath that
resolves to the open document's URI. -/
def env9 : NotebookEnv :=
  ⟨fun s => if s = "args2" then .parsed (some "/nb.ipynb") else .malformed,
   fun fp => if fp = "/nb.ipynb" then some "uri-nb" else none,
   [doc9]⟩

/-- Context whose last pending round (dropped by selection) holds the only
notebook invocation. -/
def ctxNbDropped : PromptContext := ⟨[], [rP1, rNbLast], false⟩

/-- Claim C1: with two or more pending tool-call rounds in the in-progress
turn, getProps keeps exactly the pending rounds with the last one dropped
and covers the new last pending round, the second-to-last of the original
list. -/
theorem getProps_drops_last_pending (ctx : PromptContext) (rs : List Round)
    (r last : Round) (h : ctx.toolCallRounds = rs ++ [r, last]) :
    getProps ctx = .ok ⟨rs ++ [r], ctx.isContinuation, r.id⟩ := by
  have h2 : ctx.toolCallRounds.length > 1 := by
    rw [h]
    simp only [List.length_append, List.length_cons, List.length_nil]
    omega
  have hdrop : ctx.toolCallRounds.dropLast = rs ++ [r] := by
    rw [h, show rs ++ [r, last] = (rs ++ [r]) ++ [last] from by simp]
    exact List.dropLast_concat
  have hlast : (rs ++ [r]).getLast? = some r := List.getLast?_concat _
  simp only [getProps, if_pos h2, hdrop, hlast]

/-- Witness for getProps_drops_last_pending at a context with pending
rounds p1 and p2. -/
theorem getProps_drops_last_pending_witness :
    getProps ctxTwoPending = .ok ⟨[rP1], false, "p1"⟩ :=
  getProps_drops_last_pending ctxTwoPending [] rP1 rP2 rfl

/-- Claim C2 (amended): with at most one pending round, at least one prior
turn, and a non-empty last prior turn, getProps forces the continuation
flag, empties the pending rounds, and covers the last round of the last
prior turn. -/
theorem getProps_continuation_covers_last_turn (ctx : PromptContext)
    (ts : List Turn) (t : Turn) (rs : List Round) (r : Round)
    (hlen : ctx.toolCallRounds.length ≤ 1)
    (hh : ctx.history = ts ++ [t]) (hr : t.rounds = rs ++ [r]) :
    getProps ctx = .ok ⟨[], true, r.id⟩ := by
  have h1 : ¬ ctx.toolCallRounds.length > 1 := by omega
  have h2 : ctx.history.length > 0 := by rw [hh]; simp
  have h3 : ctx.history.getLast? = some t := by
    rw [hh]; exact List.getLast?_concat _
  have h4 : t.rounds.getLast? = some r := by
    rw [hr]; exact List.getLast?_concat _
  simp only [getProps, if_neg h1, if_pos h2, h3, h4]

/-- Witness for getProps_continuation_covers_last_turn at a context with
one prior turn holding round r1 and no pending rounds. -/
theorem getProps_continuation_covers_last_turn_witness :
    getProps ctxOneTurn = .ok ⟨[], true, "r1"⟩ :=
  getProps_continuation_covers_last_turn ctxOneTurn [] ⟨[rH1]⟩ [] rH1
    (by decide) rfl rfl

/-- Counterexample to claim C2 as stated: a context with no pending rounds
and one prior turn whose rounds list is empty satisfies the claim's
precondition, yet getProps fails on the unguarded last-round access rather
than returning any selection. -/
theorem getProps_continuation_counterexample :
    ctxEmptyLastTurn.toolCallRounds.length ≤ 1 ∧
      0 < ctxEmptyLastTurn.history.length ∧
      getProps ctxEmptyLastTurn = .error .undefinedAccess :=
  ⟨by decide, by decide, rfl⟩

/-- Claim C10: with at most one pending round and a non-empty history whose
last turn has an empty rounds list, getProps hits the unguarded last-round
access (the undefinedAccess branch of the embedding) instead of failing
with the Nothing-to-summarize error. -/
theorem getProps_empty_last_turn_undefined_access (ctx : PromptContext)
    (ts : List Turn) (t : Turn)
    (hlen : ctx.toolCallRounds.length ≤ 1)
    (hh : ctx.history = ts ++ [t]) (hr : t.rounds = []) :
    getProps ctx = .error .undefinedAccess ∧
      getProps ctx ≠ .error .nothingToSummarize := by
  have h1 : ¬ ctx.toolCallRounds.length > 1 := by omega
  have h2 : ctx.history.length > 0 := by rw [hh]; simp
  have h3 : ctx.history.getLast? = some t := by
    rw [hh]; exact List.getLast?_concat _
  have h4 : t.rounds.getLast? = none := by rw [hr]; rfl
  refine ⟨?_, ?_⟩
  · simp only [getProps, if_neg h1, if_pos h2, h3, h4]
  · simp only [getProps, if_neg h1, if_pos h2, h3, h4]
    intro hcontra
    exact GetPropsError.noConfusion (Except.error.inj hcontra)

/-- Witness for getProps_empty_last_turn_undefined_access at the context
whose only turn has no rounds. -/
theorem getProps_empty_last_turn_undefined_access_witness :
    getProps ctxEmptyLastTurn = .error .undefinedAccess ∧
      getProps ctxEmptyLastTurn ≠ .error .nothingToSummarize :=
  getProps_empty_last_turn_undefined_access ctxEmptyLastTurn [] ⟨[]⟩
    (by decide) rfl rfl

/-- Claim C3: with no prior turns and at most one pending round, the
compaction attempt fails with the Nothing-to-summarize error, reports no
telemetry, makes zero completion-endpoint calls, and leaves the context
untouched. -/
theorem summarizeHistory_nothing_to_summarize (env : SummarizeEnv)
    (ctx : PromptContext) (h1 : ctx.history = [])
    (h2 : ctx.toolCallRounds.length ≤ 1) :
    (summarizeHistory env ctx).result = .error .nothingToSummarize ∧
      (summarizeHistory env ctx).endpointCalls = 0 ∧
      (summarizeHistory env ctx).finalCtx = ctx := by
  have hp : getProps ctx = .error .nothingToSummarize := by
    have hn : ¬ ctx.toolCallRounds.length > 1 := by omega
    have hh : ¬ ctx.history.length > 0 := by rw [h1]; simp
    simp only [getProps, if_neg hn, if_neg hh]
  simp [summarizeHistory, hp]

/-- Witness for summarizeHistory_nothing_to_summarize at the empty context
with a throwing endpoint oracle. -/
theorem summarizeHistory_nothing_to_summarize_witness :
    (summarizeHistory envThrow ctxNothing).result =
        .error .nothingToSummarize ∧
      (summarizeHistory envThrow ctxNothing).endpointCalls = 0 ∧
      (summarizeHistory envThrow ctxNothing).finalCtx = ctxNothing :=
  summarizeHistory_nothing_to_summarize envThrow ctxNothing rfl (by decide)

/-- Claim C4: when the endpoint answers successfully but the summary
measures over the output token budget, the attempt raises the too-large
outcome, reports exactly that telemetry event, and leaves the context —
including the covered round's summary field — unchanged. -/
theorem summarizeHistory_too_large_atomic (env : SummarizeEnv)
    (ctx : PromptContext) (info : SelectionInfo) (v rid : String)
    (hp : getProps ctx = .ok info) (hr : env.renderOutcome = .ok)
    (hc : env.chatResult = .success v rid)
    (ht : env.countTokens v > env.tokenBudget) :
    (summarizeHistory env ctx).result = .error .tooLarge ∧
      (summarizeHistory env ctx).finalCtx = ctx ∧
      (summarizeHistory env ctx).telemetry = ["too_large"] := by
  simp [summarizeHistory, hp, hr, hc, ht]

/-- Witness for summarizeHistory_too_large_atomic: a six-character summary
against a budget of three tokens on the one-turn context. -/
theorem summarizeHistory_too_large_atomic_witness :
    (summarizeHistory envTooLarge ctxOneTurn).result = .error .tooLarge ∧
      (summarizeHistory envTooLarge ctxOneTurn).finalCtx = ctxOneTurn ∧
      (summarizeHistory envTooLarge ctxOneTurn).telemetry = ["too_large"] :=
  summarizeHistory_too_large_atomic envTooLarge ctxOneTurn
    ⟨[], true, "r1"⟩ "BIGSUM" "req1" rfl rfl rfl (by decide)

/-- Claim C7 (amended): every exit path of the attempt after a successful
round selection reports exactly the one telemetry outcome of the spec's
taxonomy for its result, while the pre-flight getProps failures propagate
with no telemetry report. -/
theorem summarizeHistory_telemetry_per_outcome (env : SummarizeEnv)
    (ctx : PromptContext) :
    (summarizeHistory env ctx).telemetry =
      expectedTelemetryTags (summarizeHistory env ctx).result := by
  unfold summarizeHistory
  cases h1 : getProps ctx with
  | error e => cases e <;> rfl
  | ok info =>
    cases h2 : env.renderOutcome with
    | budgetExceeded => rfl
    | renderError => rfl
    | ok =>
      cases h3 : env.chatResult with
      | thrown => rfl
      | failed rid reason => rfl
      | other ty rid reason => rfl
      | success v rid =>
        by_cases h4 : env.countTokens v > env.tokenBudget
        · simp only [if_pos h4]; rfl
        · simp only [if_neg h4]; rfl

/-- Counterexample to claim C7 as stated: the Nothing-to-summarize exit
path completes no telemetry report before propagating. -/
theorem summarizeHistory_telemetry_counterexample :
    (summarizeHistory envThrow ctxNothing).result =
        .error .nothingToSummarize ∧
      (summarizeHistory envThrow ctxNothing).telemetry = [] :=
  ⟨rfl, rfl⟩

/-- A list of rounds containing no round with the given id reports false
to the any-id scan. -/
lemma any_id_false {l : List Round} {rid : String} (h : ∀ r ∈ l, r.id ≠ rid) :
    (l.any fun r => r.id = rid) = false := by
  simp only [List.any_eq_false, decide_eq_true_eq]
  exact h

/-- A list of rounds containing a round with the given id reports true to
the any-id scan. -/
lemma any_id_true {l : List Round} {rid : String} {r : Round} (hm : r ∈ l)
    (hr : r.id = rid) : (l.any fun r => r.id = rid) = true := by
  simp only [List.any_eq_true, decide_eq_true_eq]
  exact ⟨r, hm, hr⟩

/-- Setting a summary by id leaves a list without that id unchanged. -/
lemma setSummaryFirst_not_mem {rid s : String} {l : List Round}
    (h : ∀ r ∈ l, r.id ≠ rid) : setSummaryFirst rid s l = l := by
  induction l with
  | nil => rfl
  | cons r rest ih =>
    have hr : r.id ≠ rid := h r (List.mem_cons_self r rest)
    simp only [setSummaryFirst, if_neg hr]
    rw [ih (fun r' hr' => h r' (List.mem_cons_of_mem r hr'))]

/-- Setting a summary by id rewrites exactly the first round carrying the
id. -/
lemma setSummaryFirst_found {rid s : String} {l₁ l₂ : List Round} {r : Round}
    (h₁ : ∀ r' ∈ l₁, r'.id ≠ rid) (hr : r.id = rid) :
    setSummaryFirst rid s (l₁ ++ r :: l₂) =
      l₁ ++ { r with summary := some s } :: l₂ := by
  induction l₁ with
  | nil => simp [setSummaryFirst, hr]
  | cons a rest ih =>
    have ha : a.id ≠ rid := h₁ a (List.mem_cons_self a rest)
    simp only [List.cons_append, setSummaryFirst, if_neg ha]
    exact congrArg (a :: ·) (ih (fun r' hr' => h₁ r' (List.mem_cons_of_mem a hr')))

/-- Setting a summary preserves every round's id and tool calls. -/
lemma setSummaryFirst_skel (rid s : String) (l : List Round) :
    (setSummaryFirst rid s l).map roundSkel = l.map roundSkel := by
  induction l with
  | nil => rfl
  | cons r rest ih =>
    by_cases hr : r.id = rid
    · simp [setSummaryFirst, if_pos hr, roundSkel]
    · simp only [setSummaryFirst, if_neg hr, List.map_cons, ih]

/-- Setting a summary preserves the list of round ids. -/
lemma setSummaryFirst_ids (rid s : String) (l : List Round) :
    (setSummaryFirst rid s l).map Round.id = l.map Round.id := by
  induction l with
  | nil => rfl
  | cons r rest ih =>
    by_cases hr : r.id = rid
    · simp [setSummaryFirst, if_pos hr]
    · simp only [setSummaryFirst, if_neg hr, List.map_cons, ih]

/-- The any-id scan of a round list depends only on the round ids. -/
lemma any_id_of_ids {l l' : List Round} {rid : String}
    (h : l.map Round.id = l'.map Round.id) :
    (l.any fun r => r.id = rid) = (l'.any fun r => r.id = rid) := by
  have h1 : ∀ m : List Round,
      (m.any fun r => r.id = rid) = (m.map Round.id).any fun i => i = rid := by
    intro m
    induction m with
    | nil => rfl
    | cons a rest ih => simp [ih]
  rw [h1, h1, h]

/-- Setting the same summary twice is the same as setting it once. -/
lemma setSummaryFirst_idem (rid s : String) (l : List Round) :
    setSummaryFirst rid s (setSummaryFirst rid s l) = setSummaryFirst rid s l := by
  induction l with
  | nil => rfl
  | cons r rest ih =>
    by_cases hr : r.id = rid
    · simp [setSummaryFirst, if_pos hr]
    · simp only [setSummaryFirst, if_neg hr, ih]

/-- Membership of a round id inside a turn is unchanged by setting a
summary in its rounds. -/
lemma turnHasRound_setSummary (rid s rid' : String) (l : List Round) :
    turnHasRound rid' ⟨setSummaryFirst rid s l⟩ = turnHasRound rid' ⟨l⟩ := by
  unfold turnHasRound
  exact any_id_of_ids (setSummaryFirst_ids rid s l)

/-- The newest-first patch scan leaves a turn list without the id
unchanged. -/
lemma patchTurnsRev_not_mem {rid s : String} {ts : List Turn}
    (h : ∀ t ∈ ts, turnHasRound rid t = false) : patchTurnsRev rid s ts = ts := by
  induction ts with
  | nil => rfl
  | cons t rest ih =>
    have ht := h t (List.mem_cons_self t rest)
    simp only [patchTurnsRev, ht, Bool.false_eq_true, if_false]
    rw [ih (fun t' ht' => h t' (List.mem_cons_of_mem t ht'))]

/-- The newest-first patch scan patches exactly the first turn containing
the id. -/
lemma patchTurnsRev_found {rid s : String} {ts₁ ts₂ : List Turn} {t : Turn}
    (h₁ : ∀ t' ∈ ts₁, turnHasRound rid t' = false)
    (ht : turnHasRound rid t = true) :
    patchTurnsRev rid s (ts₁ ++ t :: ts₂) =
      ts₁ ++ (⟨setSummaryFirst rid s t.rounds⟩ : Turn) :: ts₂ := by
  induction ts₁ with
  | nil => simp [patchTurnsRev, ht]
  | cons a rest ih =>
    have ha := h₁ a (List.mem_cons_self a rest)
    simp only [List.cons_append, patchTurnsRev, ha, Bool.false_eq_true, if_false]
    exact congrArg (a :: ·) (ih (fun t' ht' => h₁ t' (List.mem_cons_of_mem a ht')))

/-- The newest-first patch scan preserves every turn's round skeletons. -/
lemma patchTurnsRev_skel (rid s : String) (ts : List Turn) :
    (patchTurnsRev rid s ts).map (fun t => t.rounds.map roundSkel) =
      ts.map (fun t => t.rounds.map roundSkel) := by
  induction ts with
  | nil => rfl
  | cons t rest ih =>
    by_cases ht : turnHasRound rid t = true
    · simp [patchTurnsRev, ht, setSummaryFirst_skel]
    · rw [Bool.not_eq_true] at ht
      simp only [patchTurnsRev, ht, Bool.false_eq_true, if_false, List.map_cons, ih]

/-- Patching the same summary twice across turns equals patching once. -/
lemma patchTurnsRev_idem (rid s : String) (ts : List Turn) :
    patchTurnsRev rid s (patchTurnsRev rid s ts) = patchTurnsRev rid s ts := by
  induction ts with
  | nil => rfl
  | cons t rest ih =>
    by_cases ht : turnHasRound rid t = true
    · have ht' : turnHasRound rid (⟨setSummaryFirst rid s t.rounds⟩ : Turn) = true := by
        rw [turnHasRound_setSummary]
        exact ht
      simp [patchTurnsRev, ht, ht', setSummaryFirst_idem]
    · rw [Bool.not_eq_true] at ht
      simp only [patchTurnsRev, ht, Bool.false_eq_true, if_false, ih]

/-- Summary installation when the covered id occurs among the pending
rounds: the first matching pending round is patched and nothing else
changes. -/
lemma addSummary_pending_found (ctx : PromptContext) (s : String)
    {l₁ l₂ : List Round} {r : Round} {rid : String}
    (hsplit : ctx.toolCallRounds = l₁ ++ r :: l₂) (hr : r.id = rid)
    (hfresh : ∀ r' ∈ l₁, r'.id ≠ rid) :
    addSummaryToHistory ctx s rid =
      { ctx with toolCallRounds := l₁ ++ { r with summary := some s } :: l₂ } := by
  have hany2 : ((l₁ ++ r :: l₂).any fun r => r.id = rid) = true :=
    any_id_true (List.mem_append_right l₁ (List.mem_cons_self r l₂)) hr
  simp [addSummaryToHistory, hsplit, hany2, setSummaryFirst_found hfresh hr]

/-- Summary installation when the covered id occurs only in the persisted
history: the first matching round of the newest turn containing the id is
patched and nothing else changes. -/
lemma addSummary_history_found (ctx : PromptContext) (s : String)
    {ts₁ ts₂ : List Turn} {t : Turn} {l₁ l₂ : List Round} {r : Round}
    {rid : String}
    (hp : ∀ r' ∈ ctx.toolCallRounds, r'.id ≠ rid)
    (hh : ctx.history = ts₁ ++ t :: ts₂)
    (hfreshTurns : ∀ t' ∈ ts₂, ∀ r' ∈ t'.rounds, r'.id ≠ rid)
    (hrounds : t.rounds = l₁ ++ r :: l₂) (hr : r.id = rid)
    (hfresh : ∀ r' ∈ l₁, r'.id ≠ rid) :
    addSummaryToHistory ctx s rid =
      { ctx with history :=
          ts₁ ++ (⟨l₁ ++ { r with summary := some s } :: l₂⟩ : Turn) :: ts₂ } := by
  have hany : (ctx.toolCallRounds.any fun r => r.id = rid) = false := any_id_false hp
  have ht : turnHasRound rid t = true := by
    unfold turnHasRound
    rw [hrounds]
    exact any_id_true (List.mem_append_right l₁ (List.mem_cons_self r l₂)) hr
  have hfresh₂ : ∀ t' ∈ ts₂.reverse, turnHasRound rid t' = false := by
    intro t' ht'
    exact any_id_false (hfreshTurns t' (List.mem_reverse.mp ht'))
  have hrev : ctx.history.reverse = ts₂.reverse ++ t :: ts₁.reverse := by
    rw [hh]
    simp
  simp only [addSummaryToHistory, hany, Bool.false_eq_true, if_false, hrev,
    patchTurnsRev_found hfresh₂ ht, hrounds, setSummaryFirst_found hfresh hr]
  simp

/-- Claim C6: summary installation preserves the history skeleton (round
ids, tool calls, counts, ordering, the flag), is idempotent, is a no-op
when the covered id occurs nowhere, installs onto the first matching
pending round when the id occurs among the pending rounds, and otherwise
installs onto the first matching round of the newest persisted turn
containing the id. -/
theorem addSummaryToHistory_contract (ctx : PromptContext) (s rid : String) :
    ctxSkel (addSummaryToHistory ctx s rid) = ctxSkel ctx ∧
      addSummaryToHistory (addSummaryToHistory ctx s rid) s rid =
        addSummaryToHistory ctx s rid ∧
      ((∀ r ∈ ctx.toolCallRounds, r.id ≠ rid) →
        (∀ t ∈ ctx.history, ∀ r ∈ t.rounds, r.id ≠ rid) →
        addSummaryToHistory ctx s rid = ctx) ∧
      (∀ l₁ l₂ : List Round, ∀ r : Round,
        ctx.toolCallRounds = l₁ ++ r :: l₂ → r.id = rid →
        (∀ r' ∈ l₁, r'.id ≠ rid) →
        addSummaryToHistory ctx s rid =
          { ctx with toolCallRounds := l₁ ++ { r with summary := some s } :: l₂ }) ∧
      (∀ ts₁ ts₂ : List Turn, ∀ t : Turn, ∀ l₁ l₂ : List Round, ∀ r : Round,
        (∀ r' ∈ ctx.toolCallRounds, r'.id ≠ rid) →
        ctx.history = ts₁ ++ t :: ts₂ →
        (∀ t' ∈ ts₂, ∀ r' ∈ t'.rounds, r'.id ≠ rid) →
        t.rounds = l₁ ++ r :: l₂ → r.id = rid →
        (∀ r' ∈ l₁, r'.id ≠ rid) →
        addSummaryToHistory ctx s rid =
          { ctx with history :=
              ts₁ ++ (⟨l₁ ++ { r with summary := some s } :: l₂⟩ : Turn) :: ts₂ }) := by
  refine ⟨?_, ?_, ?_, ?_, ?_⟩
  · by_cases hany : (ctx.toolCallRounds.any fun r => r.id = rid) = true
    · simp [addSummaryToHistory, hany, ctxSkel, setSummaryFirst_skel]
    · rw [Bool.not_eq_true] at hany
      simp only [addSummaryToHistory, hany, Bool.false_eq_true, if_false, ctxSkel]
      simp [List.map_reverse, patchTurnsRev_skel]
  · by_cases hany : (ctx.toolCallRounds.any fun r => r.id = rid) = true
    · have hany' : ((setSummaryFirst rid s ctx.toolCallRounds).any
          fun r => r.id = rid) = true := by
        rw [any_id_of_ids (setSummaryFirst_ids rid s ctx.toolCallRounds)]
        exact hany
      simp [addSummaryToHistory, hany, hany', setSummaryFirst_idem]
    · rw [Bool.not_eq_true] at hany
      simp only [addSummaryToHistory, hany, Bool.false_eq_true, if_false]
      simp [hany, List.reverse_reverse, patchTurnsRev_idem]
  · intro hp hh
    have hany : (ctx.toolCallRounds.any fun r => r.id = rid) = false := any_id_false hp
    have hturns : ∀ t ∈ ctx.history.reverse, turnHasRound rid t = false := by
      intro t ht
      exact any_id_false (hh t (List.mem_reverse.mp ht))
    simp only [addSummaryToHistory, hany, Bool.false_eq_true, if_false,
      patchTurnsRev_not_mem hturns, List.reverse_reverse]
  · intro l₁ l₂ r hsplit hr hfresh
    exact addSummary_pending_found ctx s hsplit hr hfresh
  · intro ts₁ ts₂ t l₁ l₂ r hp hh hfreshTurns hrounds hr hfresh
    exact addSummary_history_found ctx s hp hh hfreshTurns hrounds hr hfresh

/-- Witness for addSummaryToHistory_contract: installing on pending round
p1 patches exactly that round, and installing an id that occurs nowhere is
a no-op. -/
theorem addSummaryToHistory_contract_witness :
    addSummaryToHistory ctxTwoPending "S" "p1" =
        ⟨[], [⟨"p1", [], some "S"⟩, rP2], false⟩ ∧
      addSummaryToHistory ctxTwoPending "S" "zz" = ctxTwoPending := by
  constructor
  · exact (addSummaryToHistory_contract ctxTwoPending "S" "p1").2.2.2.1
      [] [rP2] rP1 rfl rfl (by simp)
  · exact (addSummaryToHistory_contract ctxTwoPending "S" "zz").2.2.1
      (by decide) (by decide)

/-- Claim C8: on a history with two summarized turns the emitted
measurement is 2, while the backward scan the spec (and the telemetry
field's own comment) describes stops at the first summarized round, b1,
and yields 1 — the break of the source exits only the inner loop, so the
scan continues into older turns and overwrites the count. -/
theorem telemetry_rounds_since_last_summarization_bug :
    numRoundsSinceLastSummarization ctxTwoSummarizedTurns = 2 ∧
      numRoundsSinceLastSummarizationSpec ctxTwoSummarizedTurns = 1 := by
  decide

/-- Claim C9 (amended): the working-notebook enrichment is total and
best-effort — for every oracle environment and context it either yields no
attachment, or the scan of the original pre-selection pending rounds
(newest first) finds a round with a recognized notebook invocation whose
first such invocation has a non-empty argument string that parses to a
string filePath, resolves to a URI, and matches an open notebook document,
which is returned. -/
theorem getWorkingNotebook_best_effort (env : NotebookEnv) (ctx : PromptContext) :
    getWorkingNotebook env ctx = none ∨
      ∃ round call fp uri doc,
        ctx.toolCallRounds.reverse.find? hasNotebookCall = some round ∧
        round.toolCalls.find? isNotebookCall = some call ∧
        call.arguments ≠ "" ∧
        env.parse call.arguments = .parsed (some fp) ∧
        env.resolveFilePath fp = some uri ∧
        env.notebookDocuments.find? (fun d => d.uri = uri) = some doc ∧
        doc.uri = uri ∧
        getWorkingNotebook env ctx = some doc := by
  cases h1 : ctx.toolCallRounds.reverse.find? hasNotebookCall with
  | none =>
    left
    simp [getWorkingNotebook, h1]
  | some round =>
    cases h2 : round.toolCalls.find? isNotebookCall with
    | none =>
      left
      simp [getWorkingNotebook, h1, h2]
    | some call =>
      by_cases h3 : call.arguments = ""
      · left
        simp [getWorkingNotebook, h1, h2, h3]
      · cases h4 : env.parse call.arguments with
        | malformed =>
          left
          simp [getWorkingNotebook, h1, h2, h3, h4]
        | parsed fpOpt =>
          cases fpOpt with
          | none =>
            left
            simp [getWorkingNotebook, h1, h2, h3, h4]
          | some fp =>
            cases h5 : env.resolveFilePath fp with
            | none =>
              left
              simp [getWorkingNotebook, h1, h2, h3, h4, h5]
            | some uri =>
              cases h6 : env.notebookDocuments.find? (fun d => d.uri = uri) with
              | none =>
                left
                simp [getWorkingNotebook, h1, h2, h3, h4, h5, h6]
              | some doc =>
                have hp6 := @List.find?_some NotebookDoc
                  (fun d => decide (d.uri = uri)) doc env.notebookDocuments h6
                have hdu : doc.uri = uri := of_decide_eq_true hp6
                refine .inr ⟨round, call, fp, uri, doc, rfl, h2, h3, h4, h5, h6,
                  hdu, ?_⟩
                simp [getWorkingNotebook, h1, h2, h3, h4, h5, h6]

/-- Counterexample to claim C9 as stated: after selection drops the last
pending round, no selected round carries a notebook invocation, yet the
builder attaches the notebook resolved from the dropped round because the
scan runs over the original, pre-selection context. -/
theorem getWorkingNotebook_counterexample :
    getPropsNotebook env9 ctxNbDropped =
        .ok (⟨[rP1], false, "p1"⟩, some doc9) ∧
      ([rP1].any hasNotebookCall) = false :=
  ⟨rfl, rfl⟩

/-- The verbatim rounds of a concatenated item list. -/
lemma verbatimRounds_append (a b : List HistItem) :
    verbatimRounds (a ++ b) = verbatimRounds a ++ verbatimRounds b := by
  induction a with
  | nil => rfl
  | cons x rest ih => cases x <;> simp [verbatimRounds, ih]

/-- The summary texts of a concatenated item list. -/
lemma summaryTexts_append (a b : List HistItem) :
    summaryTexts (a ++ b) = summaryTexts a ++ summaryTexts b := by
  induction a with
  | nil => rfl
  | cons x rest ih => cases x <;> simp [summaryTexts, ih]

/-- The backward scan over rounds with no truthy summary finds nothing and
pushes every round. -/
lemma scanRoundsGo_clean (m acc : List Round)
    (h : ∀ r ∈ m, isTruthy r.summary = false) :
    scanRoundsGo m acc = (none, (acc ++ m).reverse) := by
  induction m generalizing acc with
  | nil => simp [scanRoundsGo]
  | cons r rest ih =>
    have hr := h r (List.mem_cons_self r rest)
    simp only [scanRoundsGo, hr, Bool.false_eq_true, if_false]
    rw [ih (acc ++ [r]) (fun x hx => h x (List.mem_cons_of_mem r hx))]
    simp

/-- The backward scan stops at the first truthy summary it meets, keeping
exactly the rounds pushed before it. -/
lemma scanRoundsGo_found (m rest acc : List Round) (r : Round)
    (hm : ∀ x ∈ m, isTruthy x.summary = false)
    (hr : isTruthy r.summary = true) :
    scanRoundsGo (m ++ r :: rest) acc =
      (some (r.id, r.summary.getD ""), (acc ++ m).reverse) := by
  induction m generalizing acc with
  | nil => simp [scanRoundsGo, hr]
  | cons x xs ih =>
    have hx := hm x (List.mem_cons_self x xs)
    simp only [List.cons_append, scanRoundsGo, hx, Bool.false_eq_true, if_false,
      List.append_eq]
    rw [ih (acc ++ [x]) (fun y hy => hm y (List.mem_cons_of_mem x hy))]
    simp

/-- A round list with no truthy summary scans to no summary with all
rounds kept in chronological order. -/
lemma scanRounds_clean (l : List Round)
    (h : ∀ r ∈ l, isTruthy r.summary = false) : scanRounds l = (none, l) := by
  unfold scanRounds
  rw [scanRoundsGo_clean _ _ (fun r hr => h r (List.mem_reverse.mp hr))]
  simp

/-- Scanning a round list whose latest truthy summary sits on r yields r's
id and text together with the rounds after r. -/
lemma scanRounds_found (l₁ l₂ : List Round) (r : Round)
    (h₂ : ∀ x ∈ l₂, isTruthy x.summary = false)
    (hr : isTruthy r.summary = true) :
    scanRounds (l₁ ++ r :: l₂) = (some (r.id, r.summary.getD ""), l₂) := by
  unfold scanRounds
  have hrev : (l₁ ++ r :: l₂).reverse = l₂.reverse ++ r :: l₁.reverse := by simp
  rw [hrev, scanRoundsGo_found _ _ _ _ (fun x hx => h₂ x (List.mem_reverse.mp hx)) hr]
  simp

/-- Rendering turns with no summarized round anywhere presents every
round of every turn verbatim, re-linearized chronologically. -/
lemma verbatim_renderTurnsRev_clean (ts : List Turn)
    (h : ∀ t ∈ ts, ∀ r ∈ t.rounds, isTruthy r.summary = false) :
    verbatimRounds ((renderTurnsRev ts).reverse) =
      (ts.reverse.map Turn.rounds).flatten := by
  induction ts with
  | nil => rfl
  | cons t rest ih =>
    have hsc : scanRounds t.rounds = (none, t.rounds) :=
      scanRounds_clean _ (h t (List.mem_cons_self t rest))
    have ihr := ih (fun u hu => h u (List.mem_cons_of_mem t hu))
    simp only [renderTurnsRev, hsc]
    simp [List.reverse_append, verbatimRounds_append, verbatimRounds, ihr]

/-- Rendering turns with no summarized round anywhere presents no summary
message. -/
lemma summary_renderTurnsRev_clean (ts : List Turn)
    (h : ∀ t ∈ ts, ∀ r ∈ t.rounds, isTruthy r.summary = false) :
    summaryTexts ((renderTurnsRev ts).reverse) = [] := by
  induction ts with
  | nil => rfl
  | cons t rest ih =>
    have hsc : scanRounds t.rounds = (none, t.rounds) :=
      scanRounds_clean _ (h t (List.mem_cons_self t rest))
    have ihr := ih (fun u hu => h u (List.mem_cons_of_mem t hu))
    simp only [renderTurnsRev, hsc]
    simp [List.reverse_append, summaryTexts_append, summaryTexts, ihr]

/-- The newest-first walk over turns stops at the first turn carrying a
summarized round, emitting that summary and the rounds after it within the
turn, after the per-turn items of the newer, summary-free turns. -/
lemma renderTurnsRev_stop (ts₁ ts₂ : List Turn) (t : Turn)
    (l₁ l₂ : List Round) (r : Round)
    (h₁ : ∀ t' ∈ ts₁, ∀ x ∈ t'.rounds, isTruthy x.summary = false)
    (hrounds : t.rounds = l₁ ++ r :: l₂)
    (hr : isTruthy r.summary = true)
    (h₂ : ∀ x ∈ l₂, isTruthy x.summary = false) :
    renderTurnsRev (ts₁ ++ t :: ts₂) =
      renderTurnsRev ts₁ ++
        [HistItem.toolCalls l₂, HistItem.summaryMessage (r.summary.getD "")] := by
  induction ts₁ with
  | nil =>
    have hsc : scanRounds t.rounds = (some (r.id, r.summary.getD ""), l₂) := by
      rw [hrounds]
      exact scanRounds_found l₁ l₂ r h₂ hr
    simp [renderTurnsRev, hsc]
  | cons u us ih =>
    have hu : scanRounds u.rounds = (none, u.rounds) :=
      scanRounds_clean _ (h₁ u (List.mem_cons_self u us))
    have ihr := ih (fun t' ht' => h₁ t' (List.mem_cons_of_mem u ht'))
    simp only [List.cons_append, renderTurnsRev, hu]
    simp [ihr]

/-- When no in-progress round carries a truthy summary, the rendered
prompt is the turn walk followed by the pending rounds verbatim, and its
summary messages are exactly those of the turn walk. -/
lemma render_clean_current (ctx : PromptContext)
    (hclean : ∀ r ∈ ctx.toolCallRounds, isTruthy r.summary = false) :
    verbatimRounds (render ctx) =
        verbatimRounds ((renderTurnsRev ctx.history.reverse).reverse) ++
          ctx.toolCallRounds ∧
      summaryTexts (render ctx) =
        summaryTexts ((renderTurnsRev ctx.history.reverse).reverse) := by
  by_cases hp : ctx.toolCallRounds.isEmpty
  · have hnil : ctx.toolCallRounds = [] := by
      cases hl : ctx.toolCallRounds with
      | nil => rfl
      | cons a b => rw [hl] at hp; exact absurd hp (by simp)
    unfold render
    rw [if_pos hp, hnil]
    by_cases hc : ctx.isContinuation
    · simp [hc, verbatimRounds_append, summaryTexts_append]
    · simp [hc, List.reverse_append, verbatimRounds_append, summaryTexts_append,
        verbatimRounds, summaryTexts]
  · have hsc : scanRounds ctx.toolCallRounds = (none, ctx.toolCallRounds) :=
      scanRounds_clean _ hclean
    unfold render
    rw [if_neg hp, hsc]
    by_cases hc : ctx.isContinuation
    · simp [hc, List.reverse_append, verbatimRounds_append, summaryTexts_append,
        verbatimRounds, summaryTexts]
    · simp [hc, List.reverse_append, verbatimRounds_append, summaryTexts_append,
        verbatimRounds, summaryTexts]

/-- Claim C5 (amended): install a non-empty summary s on round r — the
round found by the patcher — where r is the latest summarized round
afterwards (no later round carries a truthy summary) and round ids do not
collide; re-rendering then presents verbatim exactly the rounds
chronologically after r, in chronological order, with s as the only
summary text. The first conjunct covers r among the pending rounds, the
second r inside a persisted turn. -/
theorem render_round_trip (ctx : PromptContext) (s : String) (hs : s ≠ "") :
    (∀ p₁ p₂ : List Round, ∀ r : Round,
      ctx.toolCallRounds = p₁ ++ r :: p₂ →
      (∀ r' ∈ p₁, r'.id ≠ r.id) →
      (∀ x ∈ p₂, isTruthy x.summary = false) →
      verbatimRounds (render (addSummaryToHistory ctx s r.id)) = p₂ ∧
        summaryTexts (render (addSummaryToHistory ctx s r.id)) = [s]) ∧
      (∀ old new : List Turn, ∀ t : Turn, ∀ l₁ l₂ : List Round, ∀ r : Round,
        ctx.history = old ++ t :: new →
        t.rounds = l₁ ++ r :: l₂ →
        (∀ r' ∈ ctx.toolCallRounds, r'.id ≠ r.id) →
        (∀ r' ∈ ctx.toolCallRounds, isTruthy r'.summary = false) →
        (∀ u ∈ new, ∀ x ∈ u.rounds, x.id ≠ r.id) →
        (∀ u ∈ new, ∀ x ∈ u.rounds, isTruthy x.summary = false) →
        (∀ r' ∈ l₁, r'.id ≠ r.id) →
        (∀ x ∈ l₂, isTruthy x.summary = false) →
        verbatimRounds (render (addSummaryToHistory ctx s r.id)) =
            l₂ ++ (new.map Turn.rounds).flatten ++ ctx.toolCallRounds ∧
          summaryTexts (render (addSummaryToHistory ctx s r.id)) = [s]) := by
  have htruthy : isTruthy (some s) = true := by
    simp [isTruthy, hs]
  constructor
  · intro p₁ p₂ r hsplit hfresh hclean₂
    have hpatch := addSummary_pending_found ctx s hsplit rfl hfresh
    have hsc : scanRounds (p₁ ++ { r with summary := some s } :: p₂) =
        (some (r.id, s), p₂) := by
      have h := scanRounds_found p₁ p₂ { r with summary := some s } hclean₂ htruthy
      simpa using h
    have hne : (p₁ ++ { r with summary := some s } :: p₂).isEmpty = false := by
      cases p₁ <;> rfl
    rw [hpatch]
    unfold render
    simp only [hne, Bool.false_eq_true, if_false, hsc]
    constructor
    · simp [verbatimRounds]
    · simp [summaryTexts]
  · intro old new t l₁ l₂ r hh hrounds hpfresh hpclean hnewfresh hnewclean hl₁fresh
      hl₂clean
    have hpatch := addSummary_history_found ctx s hpfresh hh hnewfresh hrounds rfl
      hl₁fresh
    rw [hpatch]
    obtain ⟨hvb, hst⟩ := render_clean_current
      { ctx with history :=
          old ++ (⟨l₁ ++ { r with summary := some s } :: l₂⟩ : Turn) :: new }
      hpclean
    have hrevturns : (old ++ (⟨l₁ ++ { r with summary := some s } :: l₂⟩ : Turn)
          :: new).reverse =
        new.reverse ++ (⟨l₁ ++ { r with summary := some s } :: l₂⟩ : Turn)
          :: old.reverse := by
      simp
    have hstop := renderTurnsRev_stop new.reverse old.reverse
      (⟨l₁ ++ { r with summary := some s } :: l₂⟩ : Turn) l₁ l₂
      { r with summary := some s }
      (fun t' ht' => hnewclean t' (List.mem_reverse.mp ht')) rfl htruthy hl₂clean
    have hcleanrev : ∀ u ∈ new.reverse, ∀ x ∈ u.rounds,
        isTruthy x.summary = false :=
      fun u hu => hnewclean u (List.mem_reverse.mp hu)
    have hvbturns := verbatim_renderTurnsRev_clean new.reverse hcleanrev
    have hstturns := summary_renderTurnsRev_clean new.reverse hcleanrev
    constructor
    · rw [hvb]
      simp only [hrevturns, hstop]
      simp [List.reverse_append, verbatimRounds_append, verbatimRounds, hvbturns]
    · rw [hst]
      simp only [hrevturns, hstop]
      simp [List.reverse_append, summaryTexts_append, summaryTexts, hstturns]

/-- Witness for render_round_trip: installing the non-empty summary S1 on
the single round r1 of the single prior turn leaves no verbatim round and
exactly the text S1 in the re-rendered prompt. -/
theorem render_round_trip_witness :
    verbatimRounds (render (addSummaryToHistory ctxOneTurn "S1" "r1")) = [] ∧
      summaryTexts (render (addSummaryToHistory ctxOneTurn "S1" "r1")) = ["S1"] := by
  have h := (render_round_trip ctxOneTurn "S1" (by decide)).2
    [] [] ⟨[rH1]⟩ [] [] rH1 rfl rfl
    (by simp [ctxOneTurn]) (by simp [ctxOneTurn]) (by simp) (by simp) (by simp)
    (by simp)
  simpa using h

/-- Counterexample to claim C5 as stated: installing the empty-string
summary on round r1 satisfies the claim's premise (a summary is installed
on r1), yet re-rendering still presents r1 verbatim and presents no
summary text, because the render walk treats an empty summary as absent
(JavaScript truthiness). -/
theorem render_round_trip_counterexample :
    (verbatimRounds (render (addSummaryToHistory ctxOneTurn "" "r1"))).map
        Round.id = ["r1"] ∧
      summaryTexts (render (addSummaryToHistory ctxOneTurn "" "r1")) = [] := by
  decide

end SCH
